import Mathlib

/-
Verification of the bit-packed permission engine and the resilient cache
layer of go-api-starter.

Shallow embedding conventions:
- machine integers (uint, uint8, uint64, int64) are modelled as Nat or Int;
  the only place where 64-bit wrap-around could matter is the permission
  value uint64(1) << position, which is written with an explicit % 2 ^ 64;
- time.Time instants are modelled as Nat; the comparison
  t.Before(time.Now()) becomes t < now;
- Go maps are unordered finite maps; they are modelled as association
  lists with unique keys, updated in place;
- the persistent store (gorm) is modelled as lists of rows inside one DB
  record; repository calls are total, so service functions only return the
  errors that the service code itself produces.
-/

namespace GoApiStarter

/-- internal/model: Permission row. Position is 0-63 inside its space and
value is the corresponding power of two. -/
structure Permission where
  code : String
  name : String
  description : String
  spaceId : Nat
  position : Nat
  value : Nat
  module : String
  isActive : Bool
deriving DecidableEq, Repr

/-- internal/model: Role row. System roles cannot be deleted. -/
structure Role where
  id : Nat
  name : String
  description : String
  isActive : Bool
  isSystem : Bool
deriving DecidableEq, Repr

/-- internal/model: UserRole link row. -/
structure UserRole where
  userId : Nat
  roleId : Nat
deriving DecidableEq, Repr

/-- internal/model: RolePermission link row; space_id and value are
denormalized from the Permission at link-creation time. -/
structure RolePermission where
  roleId : Nat
  permissionId : Nat
  spaceId : Nat
  value : Nat
deriving DecidableEq, Repr

/-- internal/model: UserPermissionCache row, the per (user, space)
denormalized bitmask with an expiry instant. -/
structure UserPermissionCache where
  userId : Nat
  spaceId : Nat
  value : Nat
  expiresAt : Nat
deriving DecidableEq, Repr

/-- The persistent store: one list of rows per table. Spaces are kept as
their ids, the only part of a PermissionSpace row the verified services
read. -/
structure DB where
  spaces : List Nat
  permissions : List Permission
  roles : List Role
  userRoles : List UserRole
  rolePerms : List RolePermission
  cacheRows : List UserPermissionCache
deriving DecidableEq, Repr

/-- PermissionRepository.FindByCode: first permission row with the code. -/
def PermissionRepository.FindByCode (db : DB) (code : String) : Option Permission :=
  db.permissions.find? (fun p => p.code == code)

/-- PermissionRepository.Exists: whether a permission with the code exists. -/
def PermissionRepository.Exists (db : DB) (code : String) : Bool :=
  db.permissions.any (fun p => p.code == code)

/-- Modelled from the spec: the body of
PermissionRepository.GetMaxPositionInSpace is not among the given sources,
only its interface declaration and its caller are. The spec states that the
position is assigned at creation time as (max existing position in space) + 1
and that the first permission of a space receives position 0, so this helper
returns the maximum position among the permissions of the space and -1 when
the space holds none. -/
def PermissionRepository.GetMaxPositionInSpace (db : DB) (spaceID : Nat) : Int :=
  (db.permissions.filter (fun p => p.spaceId == spaceID)).foldl
    (fun acc p => max acc (p.position : Int)) (-1)

/-- RoleRepository.FindByID: first role row with the id. -/
def RoleRepository.FindByID (db : DB) (id : Nat) : Option Role :=
  db.roles.find? (fun r => r.id == id)

/-- Service-level errors of the permission registry, one constructor per Go
error variable of internal/service/bit_permission_manager.go. -/
inductive PermError
  | permissionSpaceNotFound
  | permissionSpaceNameExists
  | permissionSpaceFull
  | permissionNotFound
  | permissionCodeExists
  | roleNotFound
  | roleNameExists
  | systemRoleCannotBeDeleted
  | userRoleNotFound
  | userRoleAlreadyExists
deriving DecidableEq, Repr

/-- RoleRepository.Delete: soft delete of every role row with the id;
RowsAffected of zero reports role-not-found. -/
def RoleRepository.Delete (db : DB) (id : Nat) : Except PermError Unit × DB :=
  if db.roles.any (fun r => r.id == id) then
    (Except.ok (), { db with roles := db.roles.filter (fun r => r.id != id) })
  else (Except.error PermError.roleNotFound, db)

/-- UserRoleRepository.FindByUserID: every user-role link of the user. -/
def UserRoleRepository.FindByUserID (db : DB) (userID : Nat) : List UserRole :=
  db.userRoles.filter (fun ur => ur.userId == userID)

/-- UserRoleRepository.GetUserIDsByRoleID: the user ids holding the role. -/
def UserRoleRepository.GetUserIDsByRoleID (db : DB) (roleID : Nat) : List Nat :=
  (db.userRoles.filter (fun ur => ur.roleId == roleID)).map (fun ur => ur.userId)

/-- RolePermissionRepository.FindByRoleID: every link of the role. -/
def RolePermissionRepository.FindByRoleID (db : DB) (roleID : Nat) : List RolePermission :=
  db.rolePerms.filter (fun rp => rp.roleId == roleID)

/-- RolePermissionRepository.DeleteByRoleID: drop every link of the role. -/
def RolePermissionRepository.DeleteByRoleID (db : DB) (roleID : Nat) : DB :=
  { db with rolePerms := db.rolePerms.filter (fun rp => rp.roleId != roleID) }

/-- UserPermissionCacheRepository.FindByUserAndSpace: the cache row of the
(user, space) pair; record-not-found is a nil row, not an error. -/
def UserPermissionCacheRepository.FindByUserAndSpace (db : DB) (userID spaceID : Nat) :
    Option UserPermissionCache :=
  db.cacheRows.find? (fun c => c.userId == userID && c.spaceId == spaceID)

/-- UserPermissionCacheRepository.DeleteByUserID: drop every cache row of the
user. -/
def UserPermissionCacheRepository.DeleteByUserID (db : DB) (userID : Nat) : DB :=
  { db with cacheRows := db.cacheRows.filter (fun c => c.userId != userID) }

/-- UserPermissionCacheRepository.DeleteByUserIDs: drop the cache rows of the
listed users; an empty list is a no-op. -/
def UserPermissionCacheRepository.DeleteByUserIDs (db : DB) (userIDs : List Nat) : DB :=
  if userIDs.isEmpty then db
  else { db with cacheRows := db.cacheRows.filter (fun c => !(userIDs.contains c.userId)) }

/-- UserPermissionCacheRepository.Upsert: gorm OnConflict on the
(user_id, space_id) pair whose DoUpdates assignment list contains only the
value and updated_at columns. On conflict the existing row therefore keeps
its expires_at; only a freshly inserted row carries the expiry of the
argument. -/
def UserPermissionCacheRepository.Upsert (db : DB) (row : UserPermissionCache) : DB :=
  if db.cacheRows.any (fun c => c.userId == row.userId && c.spaceId == row.spaceId) then
    { db with cacheRows := db.cacheRows.map (fun c =>
        if c.userId == row.userId && c.spaceId == row.spaceId then
          { c with value := row.value }
        else c) }
  else { db with cacheRows := db.cacheRows ++ [row] }

/-- A Go map from space id to 64-bit bitmask, modelled as an association
list with unique keys. -/
abbrev SpaceMap := List (Nat × Nat)

/-- Map lookup, the Go expression v, ok := m[k]. -/
def SpaceMap.get? (m : SpaceMap) (k : Nat) : Option Nat :=
  (m.find? (fun q => q.1 == k)).map (fun q => q.2)

/-- Map lookup with the Go zero value for a missing key. -/
def SpaceMap.getD (m : SpaceMap) (k : Nat) : Nat :=
  (SpaceMap.get? m k).getD 0

/-- Key membership of the map. -/
def SpaceMap.hasKey (m : SpaceMap) (k : Nat) : Bool :=
  m.any (fun q => q.1 == k)

/-- The Go statement sv[k] |= v: update the entry in place, or create it
(the zero value ORed with v is v) when the key is absent. -/
def SpaceMap.orInsert : SpaceMap → Nat → Nat → SpaceMap
  | [], k, v => [(k, v)]
  | q :: rest, k, v =>
    if q.1 == k then (q.1, q.2 ||| v) :: rest
    else q :: SpaceMap.orInsert rest k v

/-- The inner loop shared by both CalculateUserPermissions implementations:
sv[rp.SpaceID] |= rp.Value over a list of role-permission links. -/
def accumRolePerms (sv : SpaceMap) (rps : List RolePermission) : SpaceMap :=
  rps.foldl (fun sv rp => SpaceMap.orInsert sv rp.spaceId rp.value) sv

/-- PermissionChecker.CalculateUserPermissions: fetch the user roles, fetch
the links of every role, and accumulate sv[rp.SpaceID] |= rp.Value across
all roles and links; returns the per-space bitmask map. -/
def PermissionChecker.CalculateUserPermissions (db : DB) (userID : Nat) : SpaceMap :=
  (UserRoleRepository.FindByUserID db userID).foldl
    (fun sv ur => accumRolePerms sv (RolePermissionRepository.FindByRoleID db ur.roleId)) []

/-- BitPermissionManager.CalculateUserPermissions: delete the cached rows of
the user, run the same accumulation, and upsert one row per space. The Go
struct literal carries no ExpiresAt, so the zero instant is persisted. -/
def BitPermissionManager.CalculateUserPermissions (db : DB) (userID : Nat) : DB :=
  let db0 := UserPermissionCacheRepository.DeleteByUserID db userID
  let sv := PermissionChecker.CalculateUserPermissions db0 userID
  sv.foldl (fun d q => UserPermissionCacheRepository.Upsert d
    { userId := userID, spaceId := q.1, value := q.2, expiresAt := 0 }) db0

/-- PermissionCache.Get (persisted-table strategy): a missing row, or a row
past its expiry while the TTL is positive, is a miss (none); otherwise the
stored bitmask. -/
def PermissionCache.Get (db : DB) (ttl now : Nat) (userID spaceID : Nat) : Option Nat :=
  match UserPermissionCacheRepository.FindByUserAndSpace db userID spaceID with
  | none => none
  | some c => if decide (0 < ttl) && decide (c.expiresAt < now) then none else some c.value

/-- PermissionCache.Set (persisted-table strategy): one upsert per entry of
the map, each built with the expiry now + ttl. -/
def PermissionCache.Set (db : DB) (ttl now : Nat) (userID : Nat) (permissions : SpaceMap) : DB :=
  permissions.foldl
    (fun d q => UserPermissionCacheRepository.Upsert d
      { userId := userID, spaceId := q.1, value := q.2, expiresAt := now + ttl }) db

/-- The error channel of the permission checker; the modelled repository
calls are total, so no code path of the embedded functions produces it. -/
inductive SvcError
  | repoFailure
deriving DecidableEq, Repr

/-- PermissionChecker.HasPermission: resolve the permission by code (an
absent code returns false with a nil error); try the cache; on a miss
recompute with CalculateUserPermissions, write the result back through
PermissionCache.Set, and test the bit against the computed map. -/
def PermissionChecker.HasPermission (db : DB) (ttl now : Nat) (userID : Nat) (code : String) :
    Except SvcError Bool × DB :=
  match PermissionRepository.FindByCode db code with
  | none => (Except.ok false, db)
  | some perm =>
    match PermissionCache.Get db ttl now userID perm.spaceId with
    | some cachedValue =>
        (Except.ok (decide ((cachedValue &&& perm.value) = perm.value)), db)
    | none =>
        let permissions := PermissionChecker.CalculateUserPermissions db userID
        let db1 := PermissionCache.Set db ttl now userID permissions
        match SpaceMap.get? permissions perm.spaceId with
        | none => (Except.ok false, db1)
        | some value =>
            (Except.ok (decide ((value &&& perm.value) = perm.value)), db1)

/-- The bitmask HasPermission ends up testing against: the fresh cached
value when the cache hits, otherwise the value recomputed by
CalculateUserPermissions (zero when the space is absent from the result). -/
def effectiveBitmask (db : DB) (ttl now userID spaceID : Nat) : Nat :=
  match PermissionCache.Get db ttl now userID spaceID with
  | some v => v
  | none => SpaceMap.getD (PermissionChecker.CalculateUserPermissions db userID) spaceID

/-- BitPermissionManager.CreatePermission: space must exist, code must be
fresh, next position is max + 1 and must stay below 64; the created row gets
value uint64(1) << position. -/
def BitPermissionManager.CreatePermission (db : DB) (code name description : String)
    (spaceID : Nat) (module : String) : Except PermError Permission × DB :=
  if !(db.spaces.contains spaceID) then
    (Except.error PermError.permissionSpaceNotFound, db)
  else if PermissionRepository.Exists db code then
    (Except.error PermError.permissionCodeExists, db)
  else
    let maxPos := PermissionRepository.GetMaxPositionInSpace db spaceID
    let nextPos := maxPos + 1
    if 64 ≤ nextPos then (Except.error PermError.permissionSpaceFull, db)
    else
      let p : Permission :=
        { code := code, name := name, description := description, spaceId := spaceID,
          position := nextPos.toNat, value := (1 <<< nextPos.toNat) % 2 ^ 64,
          module := module, isActive := true }
      (Except.ok p, { db with permissions := db.permissions ++ [p] })

/-- BitPermissionManager.DeleteRole: role must exist and must not be a
system role; then collect the holders, clear their cache rows, drop the
role-permission links and soft delete the role. -/
def BitPermissionManager.DeleteRole (db : DB) (id : Nat) : Except PermError Unit × DB :=
  match RoleRepository.FindByID db id with
  | none => (Except.error PermError.roleNotFound, db)
  | some role =>
    if role.isSystem then (Except.error PermError.systemRoleCannotBeDeleted, db)
    else
      let uids := UserRoleRepository.GetUserIDsByRoleID db id
      let db1 :=
        if 0 < uids.length then UserPermissionCacheRepository.DeleteByUserIDs db uids else db
      let db2 := RolePermissionRepository.DeleteByRoleID db1 id
      RoleRepository.Delete db2 id

/-- pkg/cache sentinel errors ErrKeyNotFound and ErrCacheUnavailable. -/
inductive CacheError
  | keyNotFound
  | cacheUnavailable
deriving DecidableEq, Repr

/-- pkg/cache cacheItem: payload plus absolute expiry; the zero time (none)
means the item never expires. -/
structure cacheItem where
  value : List Nat
  expiresAt : Option Nat
deriving DecidableEq, Repr

/-- cacheItem.isExpired at the instant now: time.Now().After(expiresAt). -/
def cacheItem.isExpired (i : cacheItem) (now : Nat) : Bool :=
  match i.expiresAt with
  | none => false
  | some t => decide (t < now)

/-- MemoryCache: the in-process backend. The data map and the counter map
are separate; available mirrors the atomic availability flag and
stopChClosed records whether close(stopCh) already ran. -/
structure MemoryCache where
  data : List (String × cacheItem)
  counters : List (String × Int)
  available : Bool
  stopChClosed : Bool
deriving DecidableEq, Repr

/-- NewMemoryCache: empty maps, available, stop channel open. -/
def NewMemoryCache : MemoryCache :=
  { data := [], counters := [], available := true, stopChClosed := false }

/-- Store into an association-list map: the Go sync.Map Store. -/
def assocStore : List (String × cacheItem) → String → cacheItem → List (String × cacheItem)
  | [], k, i => [(k, i)]
  | q :: rest, k, i =>
    if q.1 == k then (k, i) :: rest else q :: assocStore rest k i

/-- MemoryCache.Get: a missing key is ErrKeyNotFound; an expired item is
deleted lazily and also reported as ErrKeyNotFound. -/
def MemoryCache.Get (m : MemoryCache) (now : Nat) (key : String) :
    Except CacheError (List Nat) × MemoryCache :=
  match m.data.find? (fun q => q.1 == key) with
  | none => (Except.error CacheError.keyNotFound, m)
  | some q =>
    if cacheItem.isExpired q.2 now then
      (Except.error CacheError.keyNotFound,
        { m with data := m.data.filter (fun r => r.1 != key) })
    else (Except.ok q.2.value, m)

/-- MemoryCache.Set: store the item; a zero TTL leaves the expiry at the
zero time, meaning never expires. -/
def MemoryCache.Set (m : MemoryCache) (now : Nat) (key : String) (value : List Nat)
    (ttl : Nat) : MemoryCache :=
  let item : cacheItem :=
    { value := value, expiresAt := if 0 < ttl then some (now + ttl) else none }
  { m with data := assocStore m.data key item }

/-- MemoryCache.Delete: removes the key from the data map only. -/
def MemoryCache.Delete (m : MemoryCache) (key : String) : MemoryCache :=
  { m with data := m.data.filter (fun q => q.1 != key) }

/-- MemoryCache.DeleteByPrefix: removes from the data map every key with the
prefix; the counter map is untouched. -/
def MemoryCache.DeleteByPrefix (m : MemoryCache) (pre : String) : MemoryCache :=
  { m with data := m.data.filter (fun q => !(pre.isPrefixOf q.1)) }

/-- MemoryCache.cleanup: the periodic sweep drops the already expired items
of the data map; the counter map is untouched. -/
def MemoryCache.cleanup (m : MemoryCache) (now : Nat) : MemoryCache :=
  { m with data := m.data.filter (fun q => !(cacheItem.isExpired q.2 now)) }

/-- The counter update of MemoryCache.Incr: LoadOrStore of a fresh atomic
counter stored at 1, or an atomic Add of 1 on the existing counter; returns
the new value and the new counter map. -/
def incrCounter : List (String × Int) → String → Int × List (String × Int)
  | [], k => (1, [(k, 1)])
  | q :: rest, k =>
    if q.1 == k then (q.2 + 1, (q.1, q.2 + 1) :: rest)
    else
      let r := incrCounter rest k
      (r.1, q :: r.2)

/-- MemoryCache.Incr: increments in the counter map, never touching the
data map. -/
def MemoryCache.Incr (m : MemoryCache) (key : String) : Int × MemoryCache :=
  let r := incrCounter m.counters key
  (r.1, { m with counters := r.2 })

/-- MemoryCache.IncrWithExpire: Incr, then store a marker item under
key + "_exp" carrying the expiry; the counter itself gets no expiry. -/
def MemoryCache.IncrWithExpire (m : MemoryCache) (now : Nat) (key : String) (ttl : Nat) :
    Int × MemoryCache :=
  let r := MemoryCache.Incr m key
  let item : cacheItem := { value := [], expiresAt := some (now + ttl) }
  (r.1, { r.2 with data := assocStore r.2.data (key ++ "_exp") item })

/-- MemoryCache.Ping: ErrCacheUnavailable once the availability flag is
down. -/
def MemoryCache.Ping (m : MemoryCache) : Except CacheError Unit :=
  if !m.available then Except.error CacheError.cacheUnavailable else Except.ok ()

/-- MemoryCache.IsAvailable: the availability flag. -/
def MemoryCache.IsAvailable (m : MemoryCache) : Bool :=
  m.available

/-- Go run-time faults reachable from the embedded code. -/
inductive GoPanic
  | closeOfClosedChannel
deriving DecidableEq, Repr

/-- MemoryCache.Close runs close(m.stopCh) and then stores false into the
availability flag. Closing an already closed channel is a run-time panic in
Go, so the successor state exists only when the stop channel was still
open. -/
def MemoryCache.Close (m : MemoryCache) : Except GoPanic MemoryCache :=
  if m.stopChClosed then Except.error GoPanic.closeOfClosedChannel
  else Except.ok { m with stopChClosed := true, available := false }

/-- FallbackCache mode flag: modePrimary or modeFallback. -/
inductive Mode
  | primaryM
  | fallbackM
deriving DecidableEq, Repr

/-- Which of the two wrapped backends an answer comes from. -/
inductive BackendId
  | primaryB
  | secondaryB
deriving DecidableEq, Repr

/-- NewFallbackCache pings the primary once; a failing ping starts the
orchestrator in fallback mode. -/
def FallbackCache.initMode (primaryPingOk : Bool) : Mode :=
  if primaryPingOk then Mode.primaryM else Mode.fallbackM

/-- FallbackCache.checkAndRecover, the body of one health-check tick: a
failing primary ping while in Primary switches to Fallback; a succeeding
ping while in Fallback switches back to Primary. -/
def FallbackCache.checkAndRecover (primaryPingOk : Bool) (mode : Mode) : Mode :=
  if !primaryPingOk && decide (mode = Mode.primaryM) then Mode.fallbackM
  else if primaryPingOk && decide (mode = Mode.fallbackM) then Mode.primaryM
  else mode

/-- FallbackCache.current: the backend selected by the mode flag. -/
def FallbackCache.currentBackend (mode : Mode) : BackendId :=
  if mode = Mode.fallbackM then BackendId.secondaryB else BackendId.primaryB

/-- FallbackCache.IsDegraded: true exactly in fallback mode. -/
def FallbackCache.IsDegraded (mode : Mode) : Bool :=
  decide (mode = Mode.fallbackM)

/-- FallbackCache.Get: attempt the backend the mode flag selects; on any
non-nil error while the mode is Primary, store Fallback and return the
secondary attempt; otherwise return the first result unchanged. The two
backends are passed as their Get functions. -/
def FallbackCache.Get (primaryGet fallbackGet : String → Except CacheError (List Nat))
    (mode : Mode) (key : String) : Except CacheError (List Nat) × Mode :=
  let attempt := if mode = Mode.fallbackM then fallbackGet key else primaryGet key
  match attempt with
  | Except.ok v => (Except.ok v, mode)
  | Except.error e =>
    if mode = Mode.primaryM then (fallbackGet key, Mode.fallbackM)
    else (Except.error e, mode)

/-- The mode transition shared verbatim by every FallbackCache operation
(Get, Set, Delete, DeleteByPrefix, Exists, Incr, IncrWithExpire): attempt
the backend the mode flag selects; when that attempt fails while the mode is
Primary, store Fallback and serve the retry from the secondary. Returns the
new mode and the backend whose answer reaches the caller. -/
def FallbackCache.opStep (attemptFails : BackendId → Bool) (mode : Mode) : Mode × BackendId :=
  let cur := FallbackCache.currentBackend mode
  if attemptFails cur && decide (mode = Mode.primaryM) then (Mode.fallbackM, BackendId.secondaryB)
  else (mode, cur)

/-- Everything that can change the mode flag after initialization: a
health-check tick, or one cache operation. -/
inductive FCEvent
  | healthTick (primaryPingOk : Bool)
  | operation (attemptFails : BackendId → Bool)

/-- The mode after one event. -/
def FallbackCache.step : FCEvent → Mode → Mode
  | FCEvent.healthTick ok, m => FallbackCache.checkAndRecover ok m
  | FCEvent.operation fails, m => (FallbackCache.opStep fails m).1

/-- An empty store. -/
def dbEmpty : DB :=
  { spaces := [], permissions := [], roles := [], userRoles := [], rolePerms := [],
    cacheRows := [] }

/-- A store whose only cache row for (user 1, space 1) is already expired:
value 5, expires_at 10. -/
def dbStale : DB :=
  { dbEmpty with cacheRows := [{ userId := 1, spaceId := 1, value := 5, expiresAt := 10 }] }

/-- A store holding one system role (id 1) with a link, a holder and a
cached bitmask. -/
def dbSys : DB :=
  { dbEmpty with
    roles := [{ id := 1, name := "admin", description := "", isActive := true,
                isSystem := true }],
    rolePerms := [{ roleId := 1, permissionId := 1, spaceId := 1, value := 1 }],
    userRoles := [{ userId := 7, roleId := 1 }],
    cacheRows := [{ userId := 7, spaceId := 1, value := 1, expiresAt := 0 }] }

/-- Claim C2, counterexample evidence: with a healthy in-process backend as
primary that simply does not hold the key, FallbackCache.Get flips the mode
from Primary to Fallback and serves the retry from the secondary, because
the code treats the non-nil ErrKeyNotFound like a backend failure. The
claim says such a get returns KeyNotFound and leaves the mode at Primary. -/
theorem fallbackGet_keyNotFound_flips_mode :
    FallbackCache.Get (fun k => (MemoryCache.Get NewMemoryCache 0 k).1)
        (fun k => (MemoryCache.Get NewMemoryCache 0 k).1) Mode.primaryM "k"
      = (Except.error CacheError.keyNotFound, Mode.fallbackM) := rfl

/-- Claim C3, counterexample evidence: a physically present but expired row
for (user 1, space 1) keeps its stale expiry across PermissionCache.Set,
because UserPermissionCacheRepository.Upsert updates only the value and
updated_at columns on conflict. The immediately following
PermissionCache.Get, well inside the TTL window (set and get at instant 20,
TTL 100), still reports a miss instead of the stored bitmask 7, and the row
keeps expires_at 10 instead of the fresh 120. -/
theorem permissionCacheSet_keeps_stale_expiry :
    PermissionCache.Get (PermissionCache.Set dbStale 100 20 1 [(1, 7)]) 100 20 1 1 = none
  ∧ (PermissionCache.Set dbStale 100 20 1 [(1, 7)]).cacheRows
      = [{ userId := 1, spaceId := 1, value := 7, expiresAt := 10 }] :=
  ⟨rfl, rfl⟩

/-- Claim C9, counterexample evidence: the second MemoryCache.Close runs
close(m.stopCh) on an already closed channel, a Go run-time panic; the
claim says the second call completes without fault. -/
theorem memoryCache_double_close_panics :
    Except.bind (MemoryCache.Close NewMemoryCache) MemoryCache.Close
      = Except.error GoPanic.closeOfClosedChannel := rfl

/-- Claim C8: DeleteRole on a role whose is_system flag is set fails with
the system-role error and changes nothing: the store, in particular the
role-permission links, the role rows and the cached user bitmasks, is
exactly as before the call. -/
theorem deleteRole_system_role_unchanged (db : DB) (id : Nat) (role : Role)
    (hfind : RoleRepository.FindByID db id = some role)
    (hsys : role.isSystem = true) :
    BitPermissionManager.DeleteRole db id
        = (Except.error PermError.systemRoleCannotBeDeleted, db)
  ∧ (BitPermissionManager.DeleteRole db id).2.rolePerms = db.rolePerms
  ∧ (BitPermissionManager.DeleteRole db id).2.roles = db.roles
  ∧ (BitPermissionManager.DeleteRole db id).2.cacheRows = db.cacheRows := by
  have h : BitPermissionManager.DeleteRole db id
      = (Except.error PermError.systemRoleCannotBeDeleted, db) := by
    unfold BitPermissionManager.DeleteRole
    rw [hfind]
    simp [hsys]
  exact ⟨h, by rw [h], by rw [h], by rw [h]⟩

/-- Witness for C8 at the concrete store dbSys, whose role 1 is a system
role. -/
theorem deleteRole_system_role_unchanged_witness :
    BitPermissionManager.DeleteRole dbSys 1
        = (Except.error PermError.systemRoleCannotBeDeleted, dbSys)
  ∧ (BitPermissionManager.DeleteRole dbSys 1).2.rolePerms = dbSys.rolePerms
  ∧ (BitPermissionManager.DeleteRole dbSys 1).2.roles = dbSys.roles
  ∧ (BitPermissionManager.DeleteRole dbSys 1).2.cacheRows = dbSys.cacheRows :=
  deleteRole_system_role_unchanged dbSys 1
    { id := 1, name := "admin", description := "", isActive := true, isSystem := true }
    rfl rfl

/-- Claim C7: a failing primary ping, at initialization or on a
health-check tick while in primary mode, puts the orchestrator into
fallback mode; in fallback mode every operation is served by the secondary
and IsDegraded is true; a health-check tick whose ping succeeds while in
fallback switches back to primary, after which IsDegraded is false and the
next operation is attempted against the primary; and no event other than a
successful health-check tick ever moves the mode to Primary. -/
theorem fallback_mode_machine :
    FallbackCache.initMode false = Mode.fallbackM
  ∧ FallbackCache.checkAndRecover false Mode.primaryM = Mode.fallbackM
  ∧ FallbackCache.IsDegraded Mode.fallbackM = true
  ∧ (∀ fails : BackendId → Bool,
      (FallbackCache.opStep fails Mode.fallbackM).2 = BackendId.secondaryB)
  ∧ FallbackCache.checkAndRecover true Mode.fallbackM = Mode.primaryM
  ∧ FallbackCache.IsDegraded Mode.primaryM = false
  ∧ FallbackCache.currentBackend Mode.primaryM = BackendId.primaryB
  ∧ (∀ (e : FCEvent) (m : Mode), FallbackCache.step e m = Mode.primaryM →
      m = Mode.primaryM ∨ e = FCEvent.healthTick true) := by
  refine ⟨rfl, rfl, rfl, ?_, rfl, rfl, rfl, ?_⟩
  · intro fails
    simp [FallbackCache.opStep, FallbackCache.currentBackend]
  · intro e m h
    cases e with
    | healthTick ok =>
      cases ok
      · cases m
        · exact Or.inl rfl
        · exact absurd h (by simp [FallbackCache.step, FallbackCache.checkAndRecover])
      · exact Or.inr rfl
    | operation fails =>
      cases m
      · exact Or.inl rfl
      · exact absurd h (by
          simp [FallbackCache.step, FallbackCache.opStep, FallbackCache.currentBackend])

/-- Witness for C7: the recovery transition taken by the tick with a
succeeding ping from fallback mode satisfies the only-transition-back
disjunction. -/
theorem fallback_mode_machine_witness :
    Mode.fallbackM = Mode.primaryM ∨ FCEvent.healthTick true = FCEvent.healthTick true :=
  fallback_mode_machine.2.2.2.2.2.2.2 (FCEvent.healthTick true) Mode.fallbackM rfl

/-- Incrementing, after any interference that leaves the counter map alone,
increments again from the value just returned. -/
theorem incrCounter_again (l : List (String × Int)) (k : String) :
    (incrCounter (incrCounter l k).2 k).1 = (incrCounter l k).1 + 1 := by
  induction l with
  | nil => simp [incrCounter]
  | cons q rest ih =>
    by_cases h : q.1 == k
    · simp [incrCounter, h]
    · simp only [incrCounter, h, Bool.false_eq_true, if_false]
      exact ih

/-- Claim C10: Delete, DeleteByPrefix and the periodic sweep act only on
the data map and never on the counter map: after Incr of key k has returned
n, a Delete (of any key, including k), a DeleteByPrefix (of any prefix,
including one covering k) or a sweep pass, followed by Incr of k, returns
n + 1. -/
theorem memoryCache_counters_frame (m : MemoryCache) (k j pre : String) (now : Nat) :
    (MemoryCache.Incr (MemoryCache.Delete (MemoryCache.Incr m k).2 j) k).1
        = (MemoryCache.Incr m k).1 + 1
  ∧ (MemoryCache.Incr ( MemoryCache.DeleteByPrefix (MemoryCache.Incr m k).2 pre) k).1
        = (MemoryCache.Incr m k).1 + 1
  ∧ (MemoryCache.Incr (MemoryCache.cleanup (MemoryCache.Incr m k).2 now) k).1
        = (MemoryCache.Incr m k).1 + 1 := by
  refine ⟨?_, ?_, ?_⟩ <;>
    simp [MemoryCache.Incr, MemoryCache.Delete, MemoryCache.DeleteByPrefix,
      MemoryCache.cleanup, incrCounter_again]

/-- OR-fold of a list of bitmasks, the accumulated Go expression a |= v. -/
def orNat (xs : List Nat) : Nat :=
  xs.foldl (fun a b => a ||| b) 0

theorem foldl_lor_init (xs : List Nat) (a b : Nat) :
    xs.foldl (fun x y => x ||| y) (a ||| b) = a ||| xs.foldl (fun x y => x ||| y) b := by
  induction xs generalizing b with
  | nil => rfl
  | cons c t ih =>
    simp only [List.foldl_cons]
    rw [Nat.lor_assoc, ih]

theorem orNat_cons (v : Nat) (xs : List Nat) : orNat (v :: xs) = v ||| orNat xs := by
  unfold orNat
  simp only [List.foldl_cons, Nat.zero_or]
  have h := foldl_lor_init xs v 0
  rwa [Nat.or_zero] at h

theorem orNat_perm {xs ys : List Nat} (h : List.Perm xs ys) : orNat xs = orNat ys := by
  induction h with
  | nil => rfl
  | cons a _ ih => rw [orNat_cons, orNat_cons, ih]
  | swap a b t =>
    rw [orNat_cons, orNat_cons, orNat_cons, orNat_cons, ← Nat.lor_assoc, ← Nat.lor_assoc,
      Nat.lor_comm b a]
  | trans _ _ ih1 ih2 => rw [ih1, ih2]

theorem any_perm {α : Type} (p : α → Bool) {xs ys : List α} (h : List.Perm xs ys) :
    xs.any p = ys.any p := by
  induction h with
  | nil => rfl
  | cons a _ ih => rw [List.any_cons, List.any_cons, ih]
  | swap a b t =>
    rw [List.any_cons, List.any_cons, List.any_cons, List.any_cons, ← Bool.or_assoc,
      ← Bool.or_assoc, Bool.or_comm (p b) (p a)]
  | trans _ _ ih1 ih2 => rw [ih1, ih2]

theorem orInsert_getD_same (m : SpaceMap) (k v : Nat) :
    SpaceMap.getD (SpaceMap.orInsert m k v) k = SpaceMap.getD m k ||| v := by
  induction m with
  | nil => simp [SpaceMap.orInsert, SpaceMap.getD, SpaceMap.get?]
  | cons q rest ih =>
    by_cases h : q.1 == k
    · simp [SpaceMap.orInsert, SpaceMap.getD, SpaceMap.get?, h]
    · simp only [SpaceMap.orInsert, h, Bool.false_eq_true, if_false]
      simp only [SpaceMap.getD, SpaceMap.get?, List.find?_cons, h] at ih ⊢
      exact ih

theorem orInsert_getD_other (m : SpaceMap) (k1 v k : Nat) (hk : (k1 == k) = false) :
    SpaceMap.getD (SpaceMap.orInsert m k1 v) k = SpaceMap.getD m k := by
  induction m with
  | nil => simp [SpaceMap.orInsert, SpaceMap.getD, SpaceMap.get?, hk]
  | cons q rest ih =>
    by_cases h : q.1 == k1
    · have e : q.1 = k1 := by simpa using h
      have hqk : (q.1 == k) = false := by rw [e]; exact hk
      simp [SpaceMap.orInsert, SpaceMap.getD, SpaceMap.get?, h, hqk]
    · by_cases hq : q.1 == k
      · simp [SpaceMap.orInsert, SpaceMap.getD, SpaceMap.get?, h, hq]
      · simp only [SpaceMap.orInsert, h, Bool.false_eq_true, if_false]
        simp only [SpaceMap.getD, SpaceMap.get?, List.find?_cons, hq] at ih ⊢
        exact ih

theorem orInsert_hasKey (m : SpaceMap) (k1 v k : Nat) :
    SpaceMap.hasKey (SpaceMap.orInsert m k1 v) k = (SpaceMap.hasKey m k || (k1 == k)) := by
  induction m with
  | nil => simp [SpaceMap.orInsert, SpaceMap.hasKey]
  | cons q rest ih =>
    by_cases h : q.1 == k1
    · have e : q.1 = k1 := by simpa using h
      subst e
      simp only [SpaceMap.orInsert, beq_self_eq_true, if_true, SpaceMap.hasKey, List.any_cons]
      cases hkk : (q.1 == k) <;>
        simp only [hkk, Bool.or_false, Bool.or_true, Bool.false_or, Bool.true_or]
    · simp only [SpaceMap.orInsert, h, Bool.false_eq_true, if_false, SpaceMap.hasKey,
        List.any_cons]
      simp only [SpaceMap.hasKey] at ih
      rw [ih, Bool.or_assoc]

/-- The values of the links of one space, in list order. -/
def linkValuesAt (l : List RolePermission) (s : Nat) : List Nat :=
  (l.filter (fun rp => rp.spaceId == s)).map (fun rp => rp.value)

theorem accum_getD (l : List RolePermission) (m : SpaceMap) (s : Nat) :
    SpaceMap.getD (accumRolePerms m l) s = SpaceMap.getD m s ||| orNat (linkValuesAt l s) := by
  induction l generalizing m with
  | nil => simp [accumRolePerms, linkValuesAt, orNat]
  | cons rp t ih =>
    have step : accumRolePerms m (rp :: t)
        = accumRolePerms (SpaceMap.orInsert m rp.spaceId rp.value) t := rfl
    rw [step, ih]
    by_cases h : rp.spaceId == s
    · have e : rp.spaceId = s := by simpa using h
      rw [e, orInsert_getD_same]
      have hl : linkValuesAt (rp :: t) s = rp.value :: linkValuesAt t s := by
        simp [linkValuesAt, h]
      rw [hl, orNat_cons, Nat.lor_assoc]
    · rw [orInsert_getD_other m rp.spaceId rp.value s (Bool.eq_false_iff.mpr h)]
      have hl : linkValuesAt (rp :: t) s = linkValuesAt t s := by
        simp [linkValuesAt, h]
      rw [hl]

theorem accum_hasKey (l : List RolePermission) (m : SpaceMap) (s : Nat) :
    SpaceMap.hasKey (accumRolePerms m l) s
      = (SpaceMap.hasKey m s || l.any (fun rp => rp.spaceId == s)) := by
  induction l generalizing m with
  | nil => simp [accumRolePerms]
  | cons rp t ih =>
    have step : accumRolePerms m (rp :: t)
        = accumRolePerms (SpaceMap.orInsert m rp.spaceId rp.value) t := rfl
    rw [step, ih, orInsert_hasKey, List.any_cons, Bool.or_assoc]

theorem foldl_accum_flatMap (rs : List UserRole) (links : Nat → List RolePermission)
    (m : SpaceMap) :
    rs.foldl (fun sv ur => accumRolePerms sv (links ur.roleId)) m
      = accumRolePerms m (rs.flatMap (fun ur => links ur.roleId)) := by
  induction rs generalizing m with
  | nil => rfl
  | cons ur t ih =>
    simp only [List.foldl_cons, List.flatMap_cons]
    rw [ih]
    unfold accumRolePerms
    rw [List.foldl_append]

/-- The concatenation, across the roles of the user in list order, of the
per-role link lists: the sequence of links the accumulation visits. -/
def userFlatLinks (db : DB) (userID : Nat) : List RolePermission :=
  (UserRoleRepository.FindByUserID db userID).flatMap
    (fun ur => RolePermissionRepository.FindByRoleID db ur.roleId)

theorem calc_eq_flat (db : DB) (userID : Nat) :
    PermissionChecker.CalculateUserPermissions db userID
      = accumRolePerms [] (userFlatLinks db userID) := by
  unfold PermissionChecker.CalculateUserPermissions userFlatLinks
  exact foldl_accum_flatMap _ (fun rid => RolePermissionRepository.FindByRoleID db rid) []

theorem userFlatLinks_perm (db db' : DB) (userID : Nat)
    (hur : List.Perm db'.userRoles db.userRoles)
    (hrp : List.Perm db'.rolePerms db.rolePerms) :
    List.Perm (userFlatLinks db' userID) (userFlatLinks db userID) := by
  unfold userFlatLinks UserRoleRepository.FindByUserID RolePermissionRepository.FindByRoleID
  refine List.Perm.trans (List.Perm.flatMap_left _ ?_) ((hur.filter _).flatMap_right _)
  intro ur _
  exact hrp.filter _

/-- Claim C5: CalculateUserPermissions is invariant under reordering of the
user role list and of the role-permission link lists: any two stores whose
user_roles tables and role_permissions tables are permutations of one
another yield the same per-space bitmask map, looked up at every space and
with the same key set, because the accumulation is bitwise OR. -/
theorem calculateUserPermissions_perm_invariant (db db' : DB) (userID : Nat)
    (hur : List.Perm db'.userRoles db.userRoles)
    (hrp : List.Perm db'.rolePerms db.rolePerms) (s : Nat) :
    SpaceMap.getD (PermissionChecker.CalculateUserPermissions db' userID) s
        = SpaceMap.getD (PermissionChecker.CalculateUserPermissions db userID) s
  ∧ SpaceMap.hasKey (PermissionChecker.CalculateUserPermissions db' userID) s
        = SpaceMap.hasKey (PermissionChecker.CalculateUserPermissions db userID) s := by
  have hperm := userFlatLinks_perm db db' userID hur hrp
  constructor
  · rw [calc_eq_flat, calc_eq_flat, accum_getD, accum_getD]
    have hp2 : List.Perm (linkValuesAt (userFlatLinks db' userID) s)
        (linkValuesAt (userFlatLinks db userID) s) := by
      unfold linkValuesAt
      exact (hperm.filter _).map _
    rw [orNat_perm hp2]
  · rw [calc_eq_flat, calc_eq_flat, accum_hasKey, accum_hasKey]
    rw [any_perm _ hperm]

/-- A store with two single-link roles for user 1 in space 1. -/
def dbA : DB :=
  { dbEmpty with
    userRoles := [{ userId := 1, roleId := 1 }, { userId := 1, roleId := 2 }],
    rolePerms := [{ roleId := 1, permissionId := 1, spaceId := 1, value := 1 },
                  { roleId := 2, permissionId := 2, spaceId := 1, value := 2 }] }

/-- dbA with both tables reversed. -/
def dbB : DB :=
  { dbEmpty with
    userRoles := [{ userId := 1, roleId := 2 }, { userId := 1, roleId := 1 }],
    rolePerms := [{ roleId := 2, permissionId := 2, spaceId := 1, value := 2 },
                  { roleId := 1, permissionId := 1, spaceId := 1, value := 1 }] }

/-- Witness for C5 at the concrete pair dbA, dbB and space 1. -/
theorem calculateUserPermissions_perm_invariant_witness :
    SpaceMap.getD (PermissionChecker.CalculateUserPermissions dbB 1) 1
        = SpaceMap.getD (PermissionChecker.CalculateUserPermissions dbA 1) 1
  ∧ SpaceMap.hasKey (PermissionChecker.CalculateUserPermissions dbB 1) 1
        = SpaceMap.hasKey (PermissionChecker.CalculateUserPermissions dbA 1) 1 :=
  calculateUserPermissions_perm_invariant dbA dbB 1 (by decide) (by decide) 1

/-- Claim C1: HasPermission returns false with a nil error when no
permission carries the code; otherwise it looks up the cached bitmask of
(user, space of the permission), recomputes through
CalculateUserPermissions and writes the result back on a cache miss or
expiry, and returns true exactly when the effective bitmask contains every
bit of the permission value. -/
theorem hasPermission_spec (db : DB) (ttl now userID : Nat) (code : String) :
    (PermissionRepository.FindByCode db code = none →
      PermissionChecker.HasPermission db ttl now userID code = (Except.ok false, db))
  ∧ ∀ perm, PermissionRepository.FindByCode db code = some perm →
      ((PermissionCache.Get db ttl now userID perm.spaceId = none →
        (PermissionChecker.HasPermission db ttl now userID code).2
          = PermissionCache.Set db ttl now userID
              (PermissionChecker.CalculateUserPermissions db userID))
      ∧ (perm.value ≠ 0 →
        (PermissionChecker.HasPermission db ttl now userID code).1
          = Except.ok (decide
              ((effectiveBitmask db ttl now userID perm.spaceId &&& perm.value)
                = perm.value)))) := by
  constructor
  · intro h
    unfold PermissionChecker.HasPermission
    rw [h]
  · intro perm hfind
    constructor
    · intro hmiss
      unfold PermissionChecker.HasPermission
      simp only [hfind, hmiss]
      cases hv : SpaceMap.get? (PermissionChecker.CalculateUserPermissions db userID)
          perm.spaceId <;> simp [hv]
    · intro hval
      unfold PermissionChecker.HasPermission effectiveBitmask
      simp only [hfind]
      cases hget : PermissionCache.Get db ttl now userID perm.spaceId with
      | some v => simp only [hget]
      | none =>
        cases hv : SpaceMap.get? (PermissionChecker.CalculateUserPermissions db userID)
            perm.spaceId with
        | some v => simp only [hget, hv, SpaceMap.getD, Option.getD_some]
        | none =>
          have h0 : (0 : Nat) ≠ perm.value := fun e => hval e.symm
          simp [hget, hv, SpaceMap.getD, Nat.zero_and, h0]

/-- A permission for the C1 witness: invoice.read at bit 0 of space 1. -/
def permC1 : Permission :=
  { code := "invoice.read", name := "Invoice Read", description := "", spaceId := 1,
    position := 0, value := 1, module := "billing", isActive := true }

/-- A store holding permC1 and a fresh cached bitmask 1 for user 7 in
space 1 (expiry 50, read at instant 20 under TTL 100). -/
def dbC1 : DB :=
  { dbEmpty with
    permissions := [permC1],
    cacheRows := [{ userId := 7, spaceId := 1, value := 1, expiresAt := 50 }] }

/-- Witness for C1: the absent-code branch on the empty store, and the
present-code branch on dbC1. -/
theorem hasPermission_spec_witness :
    PermissionChecker.HasPermission dbEmpty 100 20 7 "nope" = (Except.ok false, dbEmpty)
  ∧ (PermissionChecker.HasPermission dbC1 100 20 7 "invoice.read").1
      = Except.ok (decide
          ((effectiveBitmask dbC1 100 20 7 permC1.spaceId &&& permC1.value)
            = permC1.value)) :=
  ⟨(hasPermission_spec dbEmpty 100 20 7 "nope").1 rfl,
   ((hasPermission_spec dbC1 100 20 7 "invoice.read").2 permC1 rfl).2 (by decide)⟩

theorem le_foldl_max (l : List Permission) (a : Int) :
    a ≤ l.foldl (fun acc p => max acc (p.position : Int)) a := by
  induction l generalizing a with
  | nil => exact le_refl a
  | cons p t ih =>
    simp only [List.foldl_cons]
    exact le_trans (le_max_left a (p.position : Int)) (ih _)

theorem mem_le_foldl_max (l : List Permission) (q : Permission) :
    ∀ a : Int, q ∈ l →
      (q.position : Int) ≤ l.foldl (fun acc p => max acc (p.position : Int)) a := by
  induction l with
  | nil =>
    intro a hq
    cases hq
  | cons p t ih =>
    intro a hq
    simp only [List.foldl_cons]
    rcases List.mem_cons.mp hq with h | h
    · subst h
      exact le_trans (le_max_right a (q.position : Int)) (le_foldl_max t _)
    · exact ih _ h

theorem neg_one_le_maxPos (db : DB) (spaceID : Nat) :
    -1 ≤ PermissionRepository.GetMaxPositionInSpace db spaceID :=
  le_foldl_max _ (-1)

/-- The row CreatePermission constructs in its success branch. -/
def createdPermission (db : DB) (code name description : String) (spaceID : Nat)
    (module : String) : Permission :=
  { code := code, name := name, description := description, spaceId := spaceID,
    position := (PermissionRepository.GetMaxPositionInSpace db spaceID + 1).toNat,
    value := (1 <<< (PermissionRepository.GetMaxPositionInSpace db spaceID + 1).toNat)
        % 2 ^ 64,
    module := module, isActive := true }

/-- Claim C4: CreatePermission on an existing space with a fresh code
allocates position max + 1 and value 2 ^ position; once the next position
would be 64 or more it fails with the capacity error and creates no row. -/
theorem createPermission_position_allocation (db : DB) (code name description module : String)
    (spaceID : Nat)
    (hspace : db.spaces.contains spaceID = true)
    (hcode : PermissionRepository.Exists db code = false) :
    (PermissionRepository.GetMaxPositionInSpace db spaceID + 1 < 64 →
      ∃ p : Permission,
        BitPermissionManager.CreatePermission db code name description spaceID module
            = (Except.ok p, { db with permissions := db.permissions ++ [p] })
        ∧ (p.position : Int) = PermissionRepository.GetMaxPositionInSpace db spaceID + 1
        ∧ p.value = 2 ^ p.position
        ∧ p.position < 64)
  ∧ (64 ≤ PermissionRepository.GetMaxPositionInSpace db spaceID + 1 →
      BitPermissionManager.CreatePermission db code name description spaceID module
          = (Except.error PermError.permissionSpaceFull, db)) := by
  have hnn : (0 : Int) ≤ PermissionRepository.GetMaxPositionInSpace db spaceID + 1 := by
    have h := neg_one_le_maxPos db spaceID
    omega
  constructor
  · intro hlt
    have hle : ¬ (64 ≤ PermissionRepository.GetMaxPositionInSpace db spaceID + 1) := by omega
    refine ⟨createdPermission db code name description spaceID module, ?_, ?_, ?_, ?_⟩
    · unfold BitPermissionManager.CreatePermission createdPermission
      simp only [hspace, hcode, Bool.not_true, Bool.false_eq_true, if_false, if_neg hle]
    · unfold createdPermission
      exact Int.toNat_of_nonneg hnn
    · have hp64 : (PermissionRepository.GetMaxPositionInSpace db spaceID + 1).toNat < 64 := by
        omega
      unfold createdPermission
      rw [Nat.one_shiftLeft]
      exact Nat.mod_eq_of_lt (Nat.pow_lt_pow_right (by omega) hp64)
    · show (PermissionRepository.GetMaxPositionInSpace db spaceID + 1).toNat < 64
      omega
  · intro hge
    unfold BitPermissionManager.CreatePermission
    simp only [hspace, hcode, Bool.not_true, Bool.false_eq_true, if_false, if_pos hge]

/-- A store with space 1 holding one permission at position 0, for the C4
and C6 witnesses. -/
def dbC4 : DB :=
  { dbEmpty with
    spaces := [1],
    permissions := [{ code := "a", name := "", description := "", spaceId := 1, position := 0,
                      value := 1, module := "", isActive := true }] }

/-- Witness for C4: creating code b in space 1 of dbC4 allocates position 1
and value 2. -/
theorem createPermission_position_allocation_witness :
    ∃ p : Permission,
      BitPermissionManager.CreatePermission dbC4 "b" "n" "d" 1 "m"
          = (Except.ok p, { dbC4 with permissions := dbC4.permissions ++ [p] })
      ∧ (p.position : Int) = PermissionRepository.GetMaxPositionInSpace dbC4 1 + 1
      ∧ p.value = 2 ^ p.position
      ∧ p.position < 64 :=
  (createPermission_position_allocation dbC4 "b" "n" "d" "m" 1 rfl rfl).1 (by decide)

/-- The stores reachable by any sequence of successful CreatePermission
calls, starting from a store holding no permissions. -/
inductive ReachableP : DB → Prop
  | init (spaces : List Nat) (roles : List Role) (userRoles : List UserRole)
      (rolePerms : List RolePermission) (cacheRows : List UserPermissionCache) :
      ReachableP { spaces := spaces, permissions := [], roles := roles,
                   userRoles := userRoles, rolePerms := rolePerms, cacheRows := cacheRows }
  | step (db : DB) (code name description : String) (spaceID : Nat) (module : String)
      (p : Permission) (db' : DB) :
      ReachableP db →
      BitPermissionManager.CreatePermission db code name description spaceID module
          = (Except.ok p, db') →
      ReachableP db'

theorem createPermission_success (db : DB) (code name description : String) (spaceID : Nat)
    (module : String) (p : Permission) (db' : DB)
    (h : BitPermissionManager.CreatePermission db code name description spaceID module
        = (Except.ok p, db')) :
    db' = { db with permissions := db.permissions ++ [p] }
  ∧ p.spaceId = spaceID
  ∧ (p.position : Int) = PermissionRepository.GetMaxPositionInSpace db spaceID + 1
  ∧ p.value = 2 ^ p.position
  ∧ p.position < 64 := by
  have hnn : (0 : Int) ≤ PermissionRepository.GetMaxPositionInSpace db spaceID + 1 := by
    have hx := neg_one_le_maxPos db spaceID
    omega
  unfold BitPermissionManager.CreatePermission at h
  split at h
  next hc1 => exact absurd h (by simp)
  next hc1 =>
    split at h
    next hc2 => exact absurd h (by simp)
    next hc2 =>
      simp only [] at h
      split at h
      next hc3 => exact absurd h (by simp)
      next hc3 =>
        rw [Prod.mk.injEq] at h
        obtain ⟨h1, h2⟩ := h
        injection h1 with h1
        subst h1
        subst h2
        refine ⟨rfl, rfl, Int.toNat_of_nonneg hnn, ?_, ?_⟩
        · show (1 <<< (PermissionRepository.GetMaxPositionInSpace db spaceID + 1).toNat)
              % 2 ^ 64
              = 2 ^ (PermissionRepository.GetMaxPositionInSpace db spaceID + 1).toNat
          rw [Nat.one_shiftLeft]
          exact Nat.mod_eq_of_lt (Nat.pow_lt_pow_right (by omega) (by omega))
        · show (PermissionRepository.GetMaxPositionInSpace db spaceID + 1).toNat < 64
          omega

/-- The inductive invariant: every permission value is the power of two of
its position, positions stay below 64, and positions are pairwise distinct
inside every space. -/
def PermBitsInv (db : DB) : Prop :=
  (∀ p ∈ db.permissions, p.value = 2 ^ p.position ∧ p.position < 64)
  ∧ ∀ s, ((db.permissions.filter (fun p => p.spaceId == s)).map
      (fun p => p.position)).Pairwise (fun a b => a ≠ b)

theorem reachable_permBitsInv (db : DB) (h : ReachableP db) : PermBitsInv db := by
  induction h with
  | init spaces roles userRoles rolePerms cacheRows =>
    constructor
    · intro p hp
      cases hp
    · intro s
      simp
  | step db code name description spaceID module p db' hr heq ih =>
    obtain ⟨hdb', hsp, hposInt, hval, hlt64⟩ :=
      createPermission_success db code name description spaceID module p db' heq
    subst hdb'
    obtain ⟨hvals, hpair⟩ := ih
    constructor
    · intro q hq
      rcases List.mem_append.mp hq with hmem | hmem
      · exact hvals q hmem
      · rcases List.mem_singleton.mp hmem with rfl
        exact ⟨hval, hlt64⟩
    · intro s
      show ((db.permissions ++ [p]).filter (fun r => r.spaceId == s)).map
          (fun r => r.position) |>.Pairwise (fun a b => a ≠ b)
      rw [List.filter_append]
      by_cases hs : p.spaceId == s
      · have e : p.spaceId = s := by simpa using hs
        have hfp : [p].filter (fun r => r.spaceId == s) = [p] := by simp [hs]
        rw [hfp, List.map_append]
        apply List.pairwise_append.mpr
        refine ⟨hpair s, by simp, ?_⟩
        intro a ha b hb
        simp only [List.map_cons, List.map_nil, List.mem_singleton] at hb
        subst hb
        obtain ⟨q, hqf, rfl⟩ := List.mem_map.mp ha
        have hqs : q.spaceId = s := by
          have hmf := (List.mem_filter.mp hqf).2
          simpa using hmf
        have hqmem : q ∈ db.permissions.filter (fun r => r.spaceId == spaceID) := by
          rw [List.mem_filter]
          refine ⟨(List.mem_filter.mp hqf).1, ?_⟩
          simp [hqs, ← e, hsp]
        have hqle : (q.position : Int)
            ≤ PermissionRepository.GetMaxPositionInSpace db spaceID := by
          unfold PermissionRepository.GetMaxPositionInSpace
          exact mem_le_foldl_max _ q (-1) hqmem
        intro heqpos
        omega
      · have hfp : [p].filter (fun r => r.spaceId == s) = [] := by simp [hs]
        rw [hfp, List.append_nil]
        exact hpair s

/-- Claim C6: in every store reachable by any sequence of successful
CreatePermission calls, the values of the permissions inside one space are
pairwise distinct powers of two, and so are their positions: no two
permissions of one space share a position or a bit. -/
theorem createPermission_values_distinct (db : DB) (h : ReachableP db) :
    (∀ s, ((db.permissions.filter (fun p => p.spaceId == s)).map
        (fun p => p.value)).Pairwise (fun a b => a ≠ b))
  ∧ (∀ s, ((db.permissions.filter (fun p => p.spaceId == s)).map
        (fun p => p.position)).Pairwise (fun a b => a ≠ b))
  ∧ ∀ p ∈ db.permissions, ∃ k, k < 64 ∧ p.value = 2 ^ k := by
  obtain ⟨hvals, hpair⟩ := reachable_permBitsInv db h
  refine ⟨?_, hpair, ?_⟩
  · intro s
    have hp := hpair s
    rw [List.pairwise_map] at hp ⊢
    refine hp.imp_of_mem ?_
    intro a b ha hb hne
    have hva := (hvals a (List.mem_of_mem_filter ha)).1
    have hvb := (hvals b (List.mem_of_mem_filter hb)).1
    intro heq
    rw [hva, hvb] at heq
    exact hne (Nat.pow_right_injective (le_refl 2) heq)
  · intro p hp2
    exact ⟨p.position, (hvals p hp2).2, (hvals p hp2).1⟩

/-- A store with one empty space (id 1). -/
def dbC6 : DB :=
  { dbEmpty with spaces := [1] }

/-- The permission the C6 witness creates: bit 0 of space 1. -/
def permC6 : Permission :=
  { code := "b", name := "n", description := "d", spaceId := 1, position := 0, value := 1,
    module := "m", isActive := true }

/-- dbC6 after the successful CreatePermission of permC6. -/
def dbC6w : DB :=
  { dbC6 with permissions := [permC6] }

/-- Witness for C6 at dbC6w, reached by one successful CreatePermission
from the permission-free store dbC6. -/
theorem createPermission_values_distinct_witness :
    (∀ s, ((dbC6w.permissions.filter (fun p => p.spaceId == s)).map
        (fun p => p.value)).Pairwise (fun a b => a ≠ b))
  ∧ (∀ s, ((dbC6w.permissions.filter (fun p => p.spaceId == s)).map
        (fun p => p.position)).Pairwise (fun a b => a ≠ b))
  ∧ ∀ p ∈ dbC6w.permissions, ∃ k, k < 64 ∧ p.value = 2 ^ k :=
  createPermission_values_distinct dbC6w
    (ReachableP.step dbC6 "b" "n" "d" 1 "m" permC6 dbC6w
      (ReachableP.init [1] [] [] [] []) rfl)
